import Mathlib

/-!
Verification of the AST-to-domain-model extraction engine of the
`abi-ast_simplifier` repository (package `parser`, file `parser.go`).

The Go source is shallowly embedded:
* Go structs become Lean structures; the mutually recursive JSON node
  types (`ASTNode`, `TypeName`, `ParameterList`, `OverrideSpecifier`,
  `ModifierInvocation`, and Go `interface{}` values) become a mutual
  inductive family, each node wrapping a non-recursive record of its
  fields.  Field names follow the JSON tags / lower-cased Go names.
  Pure bookkeeping fields that no embedded function ever reads
  (`id`, `src`, `scope`, `overloadedDeclarations`, `isConstant`,
  `isLValue`, `isPure`, and the unused members of `ModifierInvocation`,
  `OverrideSpecifier` and `IdentifierPath`) are omitted.
* Go `interface{}` values that the parser inspects with a type switch
  are embedded as the inductive `GoValue`.  A JSON object stored in an
  `interface{}` (Go `map[string]interface{}`) is embedded as
  `GoValue.obj n` carrying the `ASTNode` that `json.Marshal` /
  `json.Unmarshal` round-trips it into; a Go `*ASTNode` stored in an
  `interface{}` is embedded as `GoValue.nodePtr`.
* `fmt.Sprintf("%v", x)` on scalars is embedded exactly; on a decoded
  JSON object or a pointer Go prints `map[...]` / `&{...}` syntax whose
  contents we do not model further (markers `"map[]"` / `"&{}"`), and we
  model JSON numbers as integers.  No claim depends on these corners.
* File I/O and JSON decoding are external collaborators: a file is
  embedded as its path together with the outcome of reading/decoding it
  (`FileData`), and `filepath.Walk` as the list of visited entries in
  walk order (`WalkEntry`).  Go's `error` results become `Except` with an
  explicit error datatype mirroring the `fmt.Errorf` wrapping structure.
-/

namespace AbiAst

/-! ### Domain model (Go structs `Contract`, `Import`, `Variable`, ...) -/

structure Import where
  absolutePath : String
  file : String
  alias' : String
deriving Repr, DecidableEq

structure Variable where
  name : String
  type' : String
  visibility : String
  stateVariable : Bool
  storageLocation : String
  constant : Bool
  mutability : String
  functionSelector : String
  value : String
deriving Repr, DecidableEq

structure Parameter where
  name : String
  type' : String
  indexed : Bool
deriving Repr, DecidableEq

structure Function where
  name : String
  visibility : String
  kind : String
  stateMutability : String
  parameters : List Parameter
  returnParameters : List Parameter
  modifiers : List String
  baseFunctions : List Int
  overrides : List String
deriving Repr, DecidableEq

structure Event where
  name : String
  parameters : List Parameter
deriving Repr, DecidableEq

structure Modifier where
  name : String
  parameters : List Parameter
deriving Repr, DecidableEq

structure Struct where
  name : String
  members : List Variable
deriving Repr, DecidableEq

structure Enum where
  name : String
  values : List String
deriving Repr, DecidableEq

structure Contract where
  name : String
  pragma : String
  imports : List Import
  inherits : List String
  constructor : Option Function
  variables' : List Variable
  functions : List Function
  events : List Event
  modifiers : List Modifier
  structs : List Struct
  enums : List Enum
  mappings : List Variable
deriving Repr, DecidableEq

/-- The Go zero value of `Contract` (what `&Contract{...}` starts from). -/
def emptyContract : Contract :=
  { name := ""
    pragma := ""
    imports := []
    inherits := []
    constructor := none
    variables' := []
    functions := []
    events := []
    modifiers := []
    structs := []
    enums := []
    mappings := [] }

/-! ### AST embedding (Go structs `ASTNode`, `TypeName`, ...) -/

structure TypeDescriptions where
  typeIdentifier : String
  typeString : String
deriving Repr, DecidableEq

structure IdentifierPath where
  name : String
deriving Repr, DecidableEq

structure BaseName where
  name : String
deriving Repr, DecidableEq

structure BaseContract where
  baseName : BaseName
deriving Repr, DecidableEq

/-- Fields of Go `TypeName`, parameterized by the recursive types
(`T` = `TypeName`, `V` = `interface{}` values, for the `length` field). -/
structure TypeNameData (T V : Type) where
  nodeType : String
  name : String
  path : String
  baseType : Option T
  length : Option V
  keyType : Option T
  valueType : Option T
  typeDescriptions : Option TypeDescriptions
  pathNode : Option IdentifierPath

/-- Fields of Go `ASTNode`, parameterized by the recursive types
(`N` = `ASTNode`, `V` = `interface{}` values, `T` = `TypeName`,
`P` = `ParameterList`, `O` = `OverrideSpecifier`, `M` = `ModifierInvocation`). -/
structure ASTNodeData (N V T P O M : Type) where
  nodeType : String
  name : String
  absolutePath : String
  file : String
  baseContracts : List BaseContract
  members : List N
  modifiers : List M
  parameters : Option P
  returnParameters : Option P
  visibility : String
  stateMutability : String
  kind : String
  baseFunctions : List Int
  overrides : Option O
  functionSelector : String
  storageLocation : String
  constant : Bool
  mutability : String
  stateVariable : Bool
  value : Option V
  typeName : Option T
  literals : List String
  nodes : List N
  operator : String
  subExpression : Option N
  expression : Option N
  arguments : List V
  hexValue : String
  leftExpression : Option N
  rightExpression : Option N
  indexed : Option Bool

mutual
/-- A Go `interface{}` value as produced by JSON decoding or as stored by the
parser: `null`, a scalar, a decoded JSON object (`obj`, carrying the `ASTNode`
it re-decodes into), a `*ASTNode` stored in an interface (`nodePtr`), or any
other dynamic type (`other`, e.g. a JSON array). -/
inductive GoValue : Type where
  | null : GoValue
  | str (s : String) : GoValue
  | num (n : Int) : GoValue
  | boolVal (b : Bool) : GoValue
  | obj (decoded : ASTNode) : GoValue
  | nodePtr (p : Option ASTNode) : GoValue
  | other : GoValue

inductive TypeName : Type where
  | mk : TypeNameData TypeName GoValue → TypeName

inductive ASTNode : Type where
  | mk : ASTNodeData ASTNode GoValue TypeName ParameterList OverrideSpecifier ModifierInvocation → ASTNode

inductive ParameterList : Type where
  | mk (parameters : List ASTNode) : ParameterList

inductive OverrideSpecifier : Type where
  | mk (overrides : List ASTNode) : OverrideSpecifier

inductive ModifierInvocation : Type where
  | mk (modifierName : ASTNode) : ModifierInvocation
end

abbrev NodeData := ASTNodeData ASTNode GoValue TypeName ParameterList OverrideSpecifier ModifierInvocation
abbrev TNData := TypeNameData TypeName GoValue

def ASTNode.data : ASTNode → NodeData
  | .mk d => d

def TypeName.data : TypeName → TNData
  | .mk d => d

def ParameterList.parameters : ParameterList → List ASTNode
  | .mk ps => ps

def OverrideSpecifier.overrides : OverrideSpecifier → List ASTNode
  | .mk os => os

def ModifierInvocation.modifierName : ModifierInvocation → ASTNode
  | .mk n => n

structure AST where
  nodes : List ASTNode

structure ABIFile where
  contractName : String
  ast : AST

/-! ### Size lemmas used only for termination of the recursive extractors -/

theorem sizeOf_keyType_le (d : TNData) : sizeOf d.keyType ≤ sizeOf d := by
  cases d; simp [TypeNameData.keyType]; omega

theorem sizeOf_valueType_le (d : TNData) : sizeOf d.valueType ≤ sizeOf d := by
  cases d; simp [TypeNameData.valueType]; omega

theorem sizeOf_baseType_le (d : TNData) : sizeOf d.baseType ≤ sizeOf d := by
  cases d; simp [TypeNameData.baseType]; omega

theorem sizeOf_subExpression_le (d : NodeData) : sizeOf d.subExpression ≤ sizeOf d := by
  cases d; simp [ASTNodeData.subExpression]; omega

theorem sizeOf_expression_le (d : NodeData) : sizeOf d.expression ≤ sizeOf d := by
  cases d; simp [ASTNodeData.expression]; omega

theorem sizeOf_leftExpression_le (d : NodeData) : sizeOf d.leftExpression ≤ sizeOf d := by
  cases d; simp [ASTNodeData.leftExpression]; omega

theorem sizeOf_rightExpression_le (d : NodeData) : sizeOf d.rightExpression ≤ sizeOf d := by
  cases d; simp [ASTNodeData.rightExpression]; omega

theorem sizeOf_arguments_le (d : NodeData) : sizeOf d.arguments ≤ sizeOf d := by
  cases d; simp [ASTNodeData.arguments]; omega

theorem sizeOf_node_data (n : ASTNode) : sizeOf n = 1 + sizeOf n.data := by
  cases n; simp [ASTNode.data]

/-! ### Helpers for Go library calls -/

/-- Go `fmt.Sprintf("%v", x)` for an `interface{}` value `x`.  Scalars print
their literal form; the formatting of decoded JSON objects and pointers
(Go `map[...]`/`&{...}` syntax) is not modelled beyond a marker. -/
def goFmtValue : GoValue → String
  | .null => "<nil>"
  | .str s => s
  | .num n => toString n
  | .boolVal b => if b then "true" else "false"
  | .obj _ => "map[]"
  | .nodePtr _ => "&\x7b\x7d"
  | .other => ""

/-- Scan of `filepath.Ext`, over the reversed character list: walk backwards
from the end of the path, stop at a path separator, and return the suffix
from the final dot (inclusive). -/
def goExtRev : List Char → List Char → String
  | [], _ => ""
  | c :: rest, acc =>
    if c = '/' then ""
    else if c = '.' then String.mk ('.' :: acc)
    else goExtRev rest (c :: acc)

/-- Go `filepath.Ext`: the suffix beginning at the final dot in the final
element of the path, or `""` when there is no dot. -/
def goExt (p : String) : String :=
  goExtRev p.data.reverse []

/-! ### `extractTypeName` (parser.go) -/

/-- Embedding of `extractTypeName`: renders a `*TypeName` subtree to a canonical type
string; `nil` and unrecognized node kinds render as `""`. -/
def extractTypeName : Option TypeName → String
  | none => ""
  | some (.mk d) =>
    match d.nodeType with
    | "ElementaryTypeName" => d.name
    | "UserDefinedTypeName" =>
      match d.typeDescriptions with
      | some td =>
        if td.typeString != "" then td.typeString
        else if d.name != "" then d.name
        else match d.pathNode with
          | some p => if p.name != "" then p.name else ""
          | none => ""
      | none =>
        if d.name != "" then d.name
        else match d.pathNode with
          | some p => if p.name != "" then p.name else ""
          | none => ""
    | "Mapping" =>
      "mapping(" ++ extractTypeName d.keyType ++ " => " ++ extractTypeName d.valueType ++ ")"
    | "ArrayTypeName" =>
      match d.length with
      | some v => extractTypeName d.baseType ++ "[" ++ goFmtValue v ++ "]"
      | none => extractTypeName d.baseType ++ "[]"
    | _ => ""
termination_by t => sizeOf t
decreasing_by
  all_goals
    (have h1 := sizeOf_keyType_le d
     have h2 := sizeOf_valueType_le d
     have h3 := sizeOf_baseType_le d
     simp
     try omega)

/-! ### `extractValue` / `extractValueFromNode` / `extractFunctionCall` (parser.go)

`extractValue` embeds the Go type switch on an `interface{}` value: the
`map[string]interface{}` case re-decodes the map into an `ASTNode` and calls
`extractValueFromNode`; a `*ASTNode` stored in an interface matches none of
the cases and falls through to the default (`"Unhandled value type"`), which
returns `""`.  The recursive calls in `extractValueFromNode` and
`extractFunctionCall` pass `*ASTNode` values to `extractValue`, embedded as
`GoValue.nodePtr`. -/

mutual
def extractValue : GoValue → String
  | .null => ""
  | .str s => s
  | .num n => toString n
  | .boolVal b => if b then "true" else "false"
  | .obj n => extractValueFromNode (some n)
  | .nodePtr _ => ""
  | .other => ""
termination_by v => 3 * sizeOf v + 2
decreasing_by
  simp

def extractValueFromNode : Option ASTNode → String
  | none => ""
  | some n =>
    match n.data.nodeType with
    | "Literal" =>
      match n.data.value with
      | some v => goFmtValue v
      | none => if n.data.hexValue != "" then n.data.hexValue else ""
    | "FunctionCall" => extractFunctionCall (some n)
    | "Identifier" => n.data.name
    | "UnaryOperation" =>
      let operand := extractValue (.nodePtr n.data.subExpression)
      n.data.operator ++ operand
    | "BinaryOperation" =>
      let left := extractValue (.nodePtr n.data.leftExpression)
      let right := extractValue (.nodePtr n.data.rightExpression)
      "(" ++ left ++ " " ++ n.data.operator ++ " " ++ right ++ ")"
    | _ => ""
termination_by o => 3 * sizeOf o + 1
decreasing_by
  all_goals
    (have h0 := sizeOf_node_data n
     have h1 := sizeOf_subExpression_le n.data
     have h2 := sizeOf_leftExpression_le n.data
     have h3 := sizeOf_rightExpression_le n.data
     simp
     try omega)

def extractFunctionCall : Option ASTNode → String
  | none => ""
  | some n =>
    match n.data.expression with
    | none => ""
    | some e =>
      let functionName :=
        if e.data.nodeType == "Identifier" then e.data.name
        else extractValue (.nodePtr n.data.expression)
      let args := n.data.arguments.attach.map (fun a => extractValue a.1)
      functionName ++ "(" ++ String.intercalate ", " args ++ ")"
termination_by o => 3 * sizeOf o
decreasing_by
  · have h0 := sizeOf_node_data n
    have h1 := sizeOf_expression_le n.data
    simp
    omega
  · have h0 := sizeOf_node_data n
    have h1 := List.sizeOf_lt_of_mem a.2
    have h2 := sizeOf_arguments_le n.data
    simp
    omega
end

/-! ### Member extractors (parser.go) -/

/-- Embedding of `ExtractPragmaDirective`: `fmt.Sprintf("pragma %s;", strings.Join(node.Literals, ""))`. -/
def ExtractPragmaDirective (node : ASTNode) : String :=
  "pragma " ++ String.join node.data.literals ++ ";"

/-- Embedding of `ExtractImportDirective`. -/
def ExtractImportDirective (node : ASTNode) : Import :=
  { absolutePath := node.data.absolutePath
    file := node.data.file
    alias' := node.data.name }

/-- Embedding of `ExtractParameter`: a parameter from a VariableDeclaration node. -/
def ExtractParameter (node : ASTNode) : Parameter :=
  { name := node.data.name
    type' := extractTypeName node.data.typeName
    indexed :=
      match node.data.indexed with
      | some b => b
      | none => false }

/-- Embedding of `ExtractModifiers`: names of the modifiers applied to a function. -/
def ExtractModifiers (node : ASTNode) : List String :=
  node.data.modifiers.map (fun m => m.modifierName.data.name)

/-- Embedding of `ExtractVariable`: a state-variable declaration. -/
def ExtractVariable (node : ASTNode) : Variable :=
  let variable' : Variable :=
    { name := node.data.name
      type' := extractTypeName node.data.typeName
      visibility := node.data.visibility
      stateVariable := node.data.stateVariable
      storageLocation := node.data.storageLocation
      constant := node.data.constant
      mutability := node.data.mutability
      functionSelector := node.data.functionSelector
      value := "" }
  match node.data.value with
  | some v => { variable' with value := extractValue v }
  | none => variable'

/-- Embedding of `ExtractFunction`: a function definition. -/
def ExtractFunction (node : ASTNode) : Function :=
  let function : Function :=
    { name := node.data.name
      kind := node.data.kind
      visibility := node.data.visibility
      stateMutability := node.data.stateMutability
      modifiers := ExtractModifiers node
      baseFunctions := node.data.baseFunctions
      parameters := []
      returnParameters := []
      overrides := [] }
  let function :=
    match node.data.overrides with
    | some ov => { function with overrides := ov.overrides.map (fun o => o.data.name) }
    | none => function
  let function :=
    match node.data.parameters with
    | some pl => { function with parameters := pl.parameters.map ExtractParameter }
    | none => function
  match node.data.returnParameters with
  | some pl => { function with returnParameters := pl.parameters.map ExtractParameter }
  | none => function

/-- Embedding of `ExtractEvent`: an event definition. -/
def ExtractEvent (node : ASTNode) : Event :=
  { name := node.data.name
    parameters :=
      match node.data.parameters with
      | some pl => pl.parameters.map ExtractParameter
      | none => [] }

/-- Embedding of `ExtractModifier`: a function modifier definition. -/
def ExtractModifier (node : ASTNode) : Modifier :=
  { name := node.data.name
    parameters :=
      match node.data.parameters with
      | some pl => pl.parameters.map ExtractParameter
      | none => [] }

/-- Embedding of `ExtractStruct`: a struct definition. -/
def ExtractStruct (node : ASTNode) : Struct :=
  { name := node.data.name
    members := node.data.members.map ExtractVariable }

/-- Embedding of `ExtractEnum`: an enum definition. -/
def ExtractEnum (node : ASTNode) : Enum :=
  { name := node.data.name
    values := (node.data.members.filter (fun m => m.data.nodeType == "EnumValue")).map
      (fun m => m.data.name) }

/-! ### Contract-definition walk (parser.go) -/

/-- Go `member.TypeName != nil && member.TypeName.NodeType == "Mapping"`. -/
def isMappingDecl (member : ASTNode) : Bool :=
  match member.data.typeName with
  | some t => t.data.nodeType == "Mapping"
  | none => false

/-- The body of the member loop in `ExtractContractDefinition`:
dispatch one member node on its `nodeType`. -/
def processMember (contract : Contract) (member : ASTNode) : Contract :=
  match member.data.nodeType with
  | "VariableDeclaration" =>
    let variable' := ExtractVariable member
    if isMappingDecl member then
      { contract with mappings := contract.mappings ++ [variable'] }
    else
      { contract with variables' := contract.variables' ++ [variable'] }
  | "FunctionDefinition" =>
    let function := ExtractFunction member
    if function.kind == "constructor" then
      { contract with constructor := some function }
    else
      { contract with functions := contract.functions ++ [function] }
  | "EventDefinition" =>
    { contract with events := contract.events ++ [ExtractEvent member] }
  | "ModifierDefinition" =>
    { contract with modifiers := contract.modifiers ++ [ExtractModifier member] }
  | "StructDefinition" =>
    { contract with structs := contract.structs ++ [ExtractStruct member] }
  | "EnumDefinition" =>
    { contract with enums := contract.enums ++ [ExtractEnum member] }
  | _ => contract

/-- Embedding of `ExtractContractDefinition`: inheritance, then the member loop. -/
def ExtractContractDefinition (node : ASTNode) (contract : Contract) : Contract :=
  let contract :=
    { contract with
        inherits := contract.inherits ++ node.data.baseContracts.map (fun b => b.baseName.name) }
  node.data.nodes.foldl processMember contract

/-- The body of the top-level loop in `ExtractContractInfoFromAST`. -/
def processTopLevel (contract : Contract) (node : ASTNode) : Contract :=
  match node.data.nodeType with
  | "PragmaDirective" =>
    { contract with pragma := ExtractPragmaDirective node }
  | "ImportDirective" =>
    { contract with imports := contract.imports ++ [ExtractImportDirective node] }
  | "ContractDefinition" =>
    let contract :=
      if contract.name == "" then { contract with name := node.data.name } else contract
    ExtractContractDefinition node contract
  | _ => contract

/-- Embedding of `ExtractContractInfoFromAST`.  The Go function returns an `error` that is
always `nil`, so it is embedded as a total function. -/
def ExtractContractInfoFromAST (ast : AST) (contract : Contract) : Contract :=
  ast.nodes.foldl processTopLevel contract

/-! ### Document loader and registry (parser.go) -/

/-- The outcome of `os.ReadFile` + `json.Unmarshal` for one file:
unreadable, undecodable, or decoded into an `ABIFile`. -/
inductive FileData : Type where
  | ioError (msg : String) : FileData
  | decodeError (msg : String) : FileData
  | decoded (f : ABIFile) : FileData

/-- The `error` values produced by the parser package, mirroring the
`fmt.Errorf` wrapping structure (each constructor that carries a path
corresponds to an error message with that path attached). -/
inductive ParseError : Type where
  /-- an `os.ReadFile` error, returned unwrapped -/
  | ioErr (msg : String) : ParseError
  /-- `"failed to parse contract file %s: %w"` -/
  | decodeErr (path msg : String) : ParseError
  /-- `"no AST found in file %s"` -/
  | missingAst (path : String) : ParseError
  /-- `"error accessing file %s: %w"` (from the walk callback) -/
  | accessErr (path msg : String) : ParseError
  /-- `"error parsing file %s: %w"` (from the walk callback) -/
  | fileErr (path : String) (e : ParseError) : ParseError
deriving Repr, DecidableEq

/-- Embedding of `ParseContractFile`: read and decode one file, then extract.
The read/decode outcome is passed in as `d` (I/O is external). -/
def ParseContractFile (path : String) (d : FileData) : Except ParseError Contract :=
  match d with
  | .ioError msg => .error (.ioErr msg)
  | .decodeError msg => .error (.decodeErr path msg)
  | .decoded f =>
    let contract : Contract := { emptyContract with name := f.contractName }
    if f.ast.nodes.length > 0 then
      .ok (ExtractContractInfoFromAST f.ast contract)
    else
      .error (.missingAst path)

/-- The registry: a Go `map[string]*Contract`, embedded as an association
list with unique keys (assignment removes any previous binding). -/
abbrev Registry := List (String × Contract)

def insertReg (m : Registry) (k : String) (v : Contract) : Registry :=
  (m.filter (fun p => p.1 ≠ k)) ++ [(k, v)]

def findReg (m : Registry) (k : String) : Option Contract :=
  (m.find? (fun p => p.1 == k)).map (fun p => p.2)

/-- One entry visited by `filepath.Walk`, in walk order: its path, whether it
is a directory, the error (if any) that the walk passes to the callback for
it, and its read/decode outcome. -/
structure WalkEntry where
  path : String
  isDir : Bool
  accessErr : Option String
  data : FileData

/-- The `filepath.Walk` callback body in `ParseAllContracts`. -/
def processEntry (contracts : Registry) (e : WalkEntry) : Except ParseError Registry :=
  match e.accessErr with
  | some msg => .error (.accessErr e.path msg)
  | none =>
    if !e.isDir && goExt e.path == ".json" then
      match ParseContractFile e.path e.data with
      | .error err => .error (.fileErr e.path err)
      | .ok contract =>
        .ok (if contract.name != "" then insertReg contracts contract.name contract
             else contracts)
    else .ok contracts

/-- Embedding of `ParseAllContracts`: fold the walk callback over the visited entries;
any callback error aborts the walk and is returned with no map. -/
def ParseAllContracts (entries : List WalkEntry) : Except ParseError Registry :=
  entries.foldlM processEntry []

/-! ### Characterization helpers

Spec-side descriptions of what the extraction walk appends, used to state
and prove the claims.  They are defined from the embedded source functions. -/

/-- Members of a contract definition that are non-mapping variable declarations. -/
def plainVarsOf (ms : List ASTNode) : List Variable :=
  (ms.filter (fun m => m.data.nodeType == "VariableDeclaration" && !isMappingDecl m)).map
    ExtractVariable

/-- Members of a contract definition that are mapping variable declarations. -/
def mappingVarsOf (ms : List ASTNode) : List Variable :=
  (ms.filter (fun m => m.data.nodeType == "VariableDeclaration" && isMappingDecl m)).map
    ExtractVariable

/-- Non-constructor function definitions among members. -/
def nonCtorFnsOf (ms : List ASTNode) : List Function :=
  (ms.filter (fun m => m.data.nodeType == "FunctionDefinition" && !(m.data.kind == "constructor"))).map
    ExtractFunction

/-- Constructor function definitions among members. -/
def ctorFnsOf (ms : List ASTNode) : List Function :=
  (ms.filter (fun m => m.data.nodeType == "FunctionDefinition" && m.data.kind == "constructor")).map
    ExtractFunction

def eventsOf (ms : List ASTNode) : List Event :=
  (ms.filter (fun m => m.data.nodeType == "EventDefinition")).map ExtractEvent

def modifiersOf (ms : List ASTNode) : List Modifier :=
  (ms.filter (fun m => m.data.nodeType == "ModifierDefinition")).map ExtractModifier

def structsOf (ms : List ASTNode) : List Struct :=
  (ms.filter (fun m => m.data.nodeType == "StructDefinition")).map ExtractStruct

def enumsOf (ms : List ASTNode) : List Enum :=
  (ms.filter (fun m => m.data.nodeType == "EnumDefinition")).map ExtractEnum

/-- Base-contract names of a contract-definition node. -/
def basesOf (n : ASTNode) : List String :=
  n.data.baseContracts.map (fun b => b.baseName.name)

/-- "Last assignment wins": fold `some` over a list, starting from a default. -/
def lastSome {α : Type} (l : List α) (d : Option α) : Option α :=
  l.foldl (fun _ f => some f) d

/-- "Last assignment wins" for plain values. -/
def lastVal {α : Type} (l : List α) (d : α) : α :=
  l.foldl (fun _ s => s) d

theorem lastSome_nil {α : Type} (d : Option α) : lastSome ([] : List α) d = d := rfl

theorem lastSome_append {α : Type} (l₁ l₂ : List α) (d : Option α) :
    lastSome (l₁ ++ l₂) d = lastSome l₂ (lastSome l₁ d) := by
  simp [lastSome, List.foldl_append]

theorem lastSome_eq_getLast? {α : Type} (l : List α) :
    lastSome l none = l.getLast? := by
  induction l using List.reverseRecOn with
  | nil => rfl
  | append_singleton xs x _ => simp [lastSome, List.foldl_append, List.getLast?_append]

theorem lastVal_append {α : Type} (l₁ l₂ : List α) (d : α) :
    lastVal (l₁ ++ l₂) d = lastVal l₂ (lastVal l₁ d) := by
  simp [lastVal, List.foldl_append]

theorem lastVal_eq_getLast? {α : Type} (l : List α) (d : α) :
    lastVal l d = (l.getLast?).getD d := by
  induction l using List.reverseRecOn with
  | nil => rfl
  | append_singleton xs x _ => simp [lastVal, List.foldl_append, List.getLast?_append]

/-- The extracted function's kind is the node's kind field. -/
theorem ExtractFunction_kind (m : ASTNode) : (ExtractFunction m).kind = m.data.kind := by
  cases ho : m.data.overrides <;> cases hp : m.data.parameters <;>
    cases hr : m.data.returnParameters <;> simp [ExtractFunction, ho, hp, hr]

/-! ### Per-field behavior of `processMember` -/

theorem processMember_variables (c : Contract) (m : ASTNode) :
    (processMember c m).variables' =
      if m.data.nodeType == "VariableDeclaration" && !isMappingDecl m
      then c.variables' ++ [ExtractVariable m] else c.variables' := by
  unfold processMember
  split
  · rename_i heq
    by_cases hm : isMappingDecl m <;> simp [heq, hm]
  · rename_i heq
    by_cases hk : (ExtractFunction m).kind = "constructor" <;> simp [heq, hk]
  · rename_i heq; simp [heq]
  · rename_i heq; simp [heq]
  · rename_i heq; simp [heq]
  · rename_i heq; simp [heq]
  · simp_all

theorem processMember_mappings (c : Contract) (m : ASTNode) :
    (processMember c m).mappings =
      if m.data.nodeType == "VariableDeclaration" && isMappingDecl m
      then c.mappings ++ [ExtractVariable m] else c.mappings := by
  unfold processMember
  split
  · rename_i heq
    by_cases hm : isMappingDecl m <;> simp [heq, hm]
  · rename_i heq
    by_cases hk : (ExtractFunction m).kind = "constructor" <;> simp [heq, hk]
  · rename_i heq; simp [heq]
  · rename_i heq; simp [heq]
  · rename_i heq; simp [heq]
  · rename_i heq; simp [heq]
  · simp_all

theorem processMember_functions (c : Contract) (m : ASTNode) :
    (processMember c m).functions =
      if m.data.nodeType == "FunctionDefinition" && !(m.data.kind == "constructor")
      then c.functions ++ [ExtractFunction m] else c.functions := by
  unfold processMember
  split
  · rename_i heq
    by_cases hm : isMappingDecl m <;> simp [heq, hm, ExtractFunction_kind]
  · rename_i heq
    by_cases hk : m.data.kind = "constructor" <;> simp [heq, hk, ExtractFunction_kind]
  · rename_i heq; simp [heq]
  · rename_i heq; simp [heq]
  · rename_i heq; simp [heq]
  · rename_i heq; simp [heq]
  · simp_all

theorem processMember_constructor (c : Contract) (m : ASTNode) :
    (processMember c m).constructor =
      if m.data.nodeType == "FunctionDefinition" && m.data.kind == "constructor"
      then some (ExtractFunction m) else c.constructor := by
  unfold processMember
  split
  · rename_i heq
    by_cases hm : isMappingDecl m <;> simp [heq, hm, ExtractFunction_kind]
  · rename_i heq
    by_cases hk : m.data.kind = "constructor" <;> simp [heq, hk, ExtractFunction_kind]
  · rename_i heq; simp [heq]
  · rename_i heq; simp [heq]
  · rename_i heq; simp [heq]
  · rename_i heq; simp [heq]
  · simp_all

theorem processMember_events (c : Contract) (m : ASTNode) :
    (processMember c m).events =
      if m.data.nodeType == "EventDefinition"
      then c.events ++ [ExtractEvent m] else c.events := by
  unfold processMember
  split
  · rename_i heq
    by_cases hm : isMappingDecl m <;> simp [heq, hm]
  · rename_i heq
    by_cases hk : (ExtractFunction m).kind = "constructor" <;> simp [heq, hk]
  · rename_i heq; simp [heq]
  · rename_i heq; simp [heq]
  · rename_i heq; simp [heq]
  · rename_i heq; simp [heq]
  · simp_all

theorem processMember_modifiers (c : Contract) (m : ASTNode) :
    (processMember c m).modifiers =
      if m.data.nodeType == "ModifierDefinition"
      then c.modifiers ++ [ExtractModifier m] else c.modifiers := by
  unfold processMember
  split
  · rename_i heq
    by_cases hm : isMappingDecl m <;> simp [heq, hm]
  · rename_i heq
    by_cases hk : (ExtractFunction m).kind = "constructor" <;> simp [heq, hk]
  · rename_i heq; simp [heq]
  · rename_i heq; simp [heq]
  · rename_i heq; simp [heq]
  · rename_i heq; simp [heq]
  · simp_all

theorem processMember_structs (c : Contract) (m : ASTNode) :
    (processMember c m).structs =
      if m.data.nodeType == "StructDefinition"
      then c.structs ++ [ExtractStruct m] else c.structs := by
  unfold processMember
  split
  · rename_i heq
    by_cases hm : isMappingDecl m <;> simp [heq, hm]
  · rename_i heq
    by_cases hk : (ExtractFunction m).kind = "constructor" <;> simp [heq, hk]
  · rename_i heq; simp [heq]
  · rename_i heq; simp [heq]
  · rename_i heq; simp [heq]
  · rename_i heq; simp [heq]
  · simp_all

theorem processMember_enums (c : Contract) (m : ASTNode) :
    (processMember c m).enums =
      if m.data.nodeType == "EnumDefinition"
      then c.enums ++ [ExtractEnum m] else c.enums := by
  unfold processMember
  split
  · rename_i heq
    by_cases hm : isMappingDecl m <;> simp [heq, hm]
  · rename_i heq
    by_cases hk : (ExtractFunction m).kind = "constructor" <;> simp [heq, hk]
  · rename_i heq; simp [heq]
  · rename_i heq; simp [heq]
  · rename_i heq; simp [heq]
  · rename_i heq; simp [heq]
  · simp_all

theorem processMember_keeps (c : Contract) (m : ASTNode) :
    (processMember c m).name = c.name ∧ (processMember c m).pragma = c.pragma ∧
    (processMember c m).imports = c.imports ∧ (processMember c m).inherits = c.inherits := by
  unfold processMember
  split
  · rename_i heq
    by_cases hm : isMappingDecl m <;> simp [heq, hm]
  · rename_i heq
    by_cases hk : (ExtractFunction m).kind = "constructor" <;> simp [heq, hk]
  · rename_i heq; simp [heq]
  · rename_i heq; simp [heq]
  · rename_i heq; simp [heq]
  · rename_i heq; simp [heq]
  · simp_all

/-! ### Characterizing the member fold of `ExtractContractDefinition` -/

theorem foldl_processMember_variables (ms : List ASTNode) (c : Contract) :
    (ms.foldl processMember c).variables' = c.variables' ++ plainVarsOf ms := by
  induction ms generalizing c with
  | nil => simp [plainVarsOf]
  | cons m ms ih =>
    rw [List.foldl_cons, ih, processMember_variables]
    by_cases h : (m.data.nodeType == "VariableDeclaration" && !isMappingDecl m) = true <;>
      simp [plainVarsOf, List.filter_cons, h]

theorem foldl_processMember_mappings (ms : List ASTNode) (c : Contract) :
    (ms.foldl processMember c).mappings = c.mappings ++ mappingVarsOf ms := by
  induction ms generalizing c with
  | nil => simp [mappingVarsOf]
  | cons m ms ih =>
    rw [List.foldl_cons, ih, processMember_mappings]
    by_cases h : (m.data.nodeType == "VariableDeclaration" && isMappingDecl m) = true <;>
      simp [mappingVarsOf, List.filter_cons, h]

theorem foldl_processMember_functions (ms : List ASTNode) (c : Contract) :
    (ms.foldl processMember c).functions = c.functions ++ nonCtorFnsOf ms := by
  induction ms generalizing c with
  | nil => simp [nonCtorFnsOf]
  | cons m ms ih =>
    rw [List.foldl_cons, ih, processMember_functions]
    by_cases h : (m.data.nodeType == "FunctionDefinition" && !(m.data.kind == "constructor")) = true <;>
      simp [nonCtorFnsOf, List.filter_cons, h]

theorem foldl_processMember_constructor (ms : List ASTNode) (c : Contract) :
    (ms.foldl processMember c).constructor = lastSome (ctorFnsOf ms) c.constructor := by
  induction ms generalizing c with
  | nil => simp [ctorFnsOf, lastSome]
  | cons m ms ih =>
    rw [List.foldl_cons, ih, processMember_constructor]
    by_cases h : (m.data.nodeType == "FunctionDefinition" && m.data.kind == "constructor") = true <;>
      simp [ctorFnsOf, lastSome, List.filter_cons, h]

theorem foldl_processMember_events (ms : List ASTNode) (c : Contract) :
    (ms.foldl processMember c).events = c.events ++ eventsOf ms := by
  induction ms generalizing c with
  | nil => simp [eventsOf]
  | cons m ms ih =>
    rw [List.foldl_cons, ih, processMember_events]
    by_cases h : (m.data.nodeType == "EventDefinition") = true <;>
      simp [eventsOf, List.filter_cons, h]

theorem foldl_processMember_modifiers (ms : List ASTNode) (c : Contract) :
    (ms.foldl processMember c).modifiers = c.modifiers ++ modifiersOf ms := by
  induction ms generalizing c with
  | nil => simp [modifiersOf]
  | cons m ms ih =>
    rw [List.foldl_cons, ih, processMember_modifiers]
    by_cases h : (m.data.nodeType == "ModifierDefinition") = true <;>
      simp [modifiersOf, List.filter_cons, h]

theorem foldl_processMember_structs (ms : List ASTNode) (c : Contract) :
    (ms.foldl processMember c).structs = c.structs ++ structsOf ms := by
  induction ms generalizing c with
  | nil => simp [structsOf]
  | cons m ms ih =>
    rw [List.foldl_cons, ih, processMember_structs]
    by_cases h : (m.data.nodeType == "StructDefinition") = true <;>
      simp [structsOf, List.filter_cons, h]

theorem foldl_processMember_enums (ms : List ASTNode) (c : Contract) :
    (ms.foldl processMember c).enums = c.enums ++ enumsOf ms := by
  induction ms generalizing c with
  | nil => simp [enumsOf]
  | cons m ms ih =>
    rw [List.foldl_cons, ih, processMember_enums]
    by_cases h : (m.data.nodeType == "EnumDefinition") = true <;>
      simp [enumsOf, List.filter_cons, h]

theorem foldl_processMember_keeps (ms : List ASTNode) (c : Contract) :
    (ms.foldl processMember c).name = c.name ∧ (ms.foldl processMember c).pragma = c.pragma ∧
    (ms.foldl processMember c).imports = c.imports ∧
    (ms.foldl processMember c).inherits = c.inherits := by
  induction ms generalizing c with
  | nil => simp
  | cons m ms ih =>
    rw [List.foldl_cons]
    have h := processMember_keeps c m
    have h2 := ih (processMember c m)
    exact ⟨by rw [h2.1, h.1], by rw [h2.2.1, h.2.1], by rw [h2.2.2.1, h.2.2.1],
      by rw [h2.2.2.2, h.2.2.2]⟩

/-! ### Characterizing `ExtractContractDefinition` -/

theorem ECD_variables (n : ASTNode) (c : Contract) :
    (ExtractContractDefinition n c).variables' = c.variables' ++ plainVarsOf n.data.nodes := by
  unfold ExtractContractDefinition
  rw [foldl_processMember_variables]

theorem ECD_mappings (n : ASTNode) (c : Contract) :
    (ExtractContractDefinition n c).mappings = c.mappings ++ mappingVarsOf n.data.nodes := by
  unfold ExtractContractDefinition
  rw [foldl_processMember_mappings]

theorem ECD_functions (n : ASTNode) (c : Contract) :
    (ExtractContractDefinition n c).functions = c.functions ++ nonCtorFnsOf n.data.nodes := by
  unfold ExtractContractDefinition
  rw [foldl_processMember_functions]

theorem ECD_constructor (n : ASTNode) (c : Contract) :
    (ExtractContractDefinition n c).constructor = lastSome (ctorFnsOf n.data.nodes) c.constructor := by
  unfold ExtractContractDefinition
  rw [foldl_processMember_constructor]

theorem ECD_events (n : ASTNode) (c : Contract) :
    (ExtractContractDefinition n c).events = c.events ++ eventsOf n.data.nodes := by
  unfold ExtractContractDefinition
  rw [foldl_processMember_events]

theorem ECD_modifiers (n : ASTNode) (c : Contract) :
    (ExtractContractDefinition n c).modifiers = c.modifiers ++ modifiersOf n.data.nodes := by
  unfold ExtractContractDefinition
  rw [foldl_processMember_modifiers]

theorem ECD_structs (n : ASTNode) (c : Contract) :
    (ExtractContractDefinition n c).structs = c.structs ++ structsOf n.data.nodes := by
  unfold ExtractContractDefinition
  rw [foldl_processMember_structs]

theorem ECD_enums (n : ASTNode) (c : Contract) :
    (ExtractContractDefinition n c).enums = c.enums ++ enumsOf n.data.nodes := by
  unfold ExtractContractDefinition
  rw [foldl_processMember_enums]

theorem ECD_inherits (n : ASTNode) (c : Contract) :
    (ExtractContractDefinition n c).inherits = c.inherits ++ basesOf n := by
  unfold ExtractContractDefinition
  have h := foldl_processMember_keeps n.data.nodes
    { c with inherits := c.inherits ++ n.data.baseContracts.map (fun b => b.baseName.name) }
  rw [h.2.2.2]
  rfl

theorem ECD_keeps (n : ASTNode) (c : Contract) :
    (ExtractContractDefinition n c).name = c.name ∧
    (ExtractContractDefinition n c).pragma = c.pragma ∧
    (ExtractContractDefinition n c).imports = c.imports := by
  unfold ExtractContractDefinition
  have h := foldl_processMember_keeps n.data.nodes
    { c with inherits := c.inherits ++ n.data.baseContracts.map (fun b => b.baseName.name) }
  exact ⟨h.1, h.2.1, h.2.2.1⟩

/-! ### Characterizing the top-level fold of `ExtractContractInfoFromAST` -/

/-- Pragma strings of the pragma-directive top-level nodes, in order. -/
def pragmasOf (ns : List ASTNode) : List String :=
  (ns.filter (fun n => n.data.nodeType == "PragmaDirective")).map ExtractPragmaDirective

/-- Imports of the import-directive top-level nodes, in order. -/
def importsOf (ns : List ASTNode) : List Import :=
  (ns.filter (fun n => n.data.nodeType == "ImportDirective")).map ExtractImportDirective

/-- The contract-definition top-level nodes, in order. -/
def cdNodes (ns : List ASTNode) : List ASTNode :=
  ns.filter (fun n => n.data.nodeType == "ContractDefinition")

def inheritsOfNodes (ns : List ASTNode) : List String :=
  (cdNodes ns).flatMap basesOf

def varsOfNodes (ns : List ASTNode) : List Variable :=
  (cdNodes ns).flatMap (fun n => plainVarsOf n.data.nodes)

def mappingsOfNodes (ns : List ASTNode) : List Variable :=
  (cdNodes ns).flatMap (fun n => mappingVarsOf n.data.nodes)

def fnsOfNodes (ns : List ASTNode) : List Function :=
  (cdNodes ns).flatMap (fun n => nonCtorFnsOf n.data.nodes)

def ctorsOfNodes (ns : List ASTNode) : List Function :=
  (cdNodes ns).flatMap (fun n => ctorFnsOf n.data.nodes)

def eventsOfNodes (ns : List ASTNode) : List Event :=
  (cdNodes ns).flatMap (fun n => eventsOf n.data.nodes)

def modifiersOfNodes (ns : List ASTNode) : List Modifier :=
  (cdNodes ns).flatMap (fun n => modifiersOf n.data.nodes)

def structsOfNodes (ns : List ASTNode) : List Struct :=
  (cdNodes ns).flatMap (fun n => structsOf n.data.nodes)

def enumsOfNodes (ns : List ASTNode) : List Enum :=
  (cdNodes ns).flatMap (fun n => enumsOf n.data.nodes)

/-- The first contract-definition node carrying a non-empty name. -/
def firstNamedCD (ns : List ASTNode) : Option ASTNode :=
  ns.find? (fun n => n.data.nodeType == "ContractDefinition" && n.data.name != "")

/-- How the contract name evolves along the top-level walk. -/
def nameFold (nm : String) (ns : List ASTNode) : String :=
  ns.foldl
    (fun nm n => if n.data.nodeType == "ContractDefinition" && nm == "" then n.data.name else nm)
    nm

theorem processTopLevel_name (c : Contract) (n : ASTNode) :
    (processTopLevel c n).name =
      if n.data.nodeType == "ContractDefinition" && c.name == "" then n.data.name else c.name := by
  unfold processTopLevel
  split
  · rename_i heq; simp [heq]
  · rename_i heq; simp [heq]
  · rename_i heq
    by_cases hm : c.name = "" <;>
      simp [heq, hm, (ECD_keeps _ _).1]
  · simp_all

theorem processTopLevel_pragma (c : Contract) (n : ASTNode) :
    (processTopLevel c n).pragma =
      if n.data.nodeType == "PragmaDirective" then ExtractPragmaDirective n else c.pragma := by
  unfold processTopLevel
  split
  · rename_i heq; simp [heq]
  · rename_i heq; simp [heq]
  · rename_i heq
    by_cases hm : c.name = "" <;>
      simp [heq, hm, (ECD_keeps _ _).2.1]
  · simp_all

theorem processTopLevel_imports (c : Contract) (n : ASTNode) :
    (processTopLevel c n).imports =
      if n.data.nodeType == "ImportDirective"
      then c.imports ++ [ExtractImportDirective n] else c.imports := by
  unfold processTopLevel
  split
  · rename_i heq; simp [heq]
  · rename_i heq; simp [heq]
  · rename_i heq
    by_cases hm : c.name = "" <;>
      simp [heq, hm, (ECD_keeps _ _).2.2]
  · simp_all

theorem processTopLevel_inherits (c : Contract) (n : ASTNode) :
    (processTopLevel c n).inherits =
      if n.data.nodeType == "ContractDefinition" then c.inherits ++ basesOf n else c.inherits := by
  unfold processTopLevel
  split
  · rename_i heq; simp [heq]
  · rename_i heq; simp [heq]
  · rename_i heq
    by_cases hm : c.name = "" <;>
      simp [heq, hm, ECD_inherits]
  · simp_all

theorem processTopLevel_variables (c : Contract) (n : ASTNode) :
    (processTopLevel c n).variables' =
      if n.data.nodeType == "ContractDefinition"
      then c.variables' ++ plainVarsOf n.data.nodes else c.variables' := by
  unfold processTopLevel
  split
  · rename_i heq; simp [heq]
  · rename_i heq; simp [heq]
  · rename_i heq
    by_cases hm : c.name = "" <;>
      simp [heq, hm, ECD_variables]
  · simp_all

theorem processTopLevel_mappings (c : Contract) (n : ASTNode) :
    (processTopLevel c n).mappings =
      if n.data.nodeType == "ContractDefinition"
      then c.mappings ++ mappingVarsOf n.data.nodes else c.mappings := by
  unfold processTopLevel
  split
  · rename_i heq; simp [heq]
  · rename_i heq; simp [heq]
  · rename_i heq
    by_cases hm : c.name = "" <;>
      simp [heq, hm, ECD_mappings]
  · simp_all

theorem processTopLevel_functions (c : Contract) (n : ASTNode) :
    (processTopLevel c n).functions =
      if n.data.nodeType == "ContractDefinition"
      then c.functions ++ nonCtorFnsOf n.data.nodes else c.functions := by
  unfold processTopLevel
  split
  · rename_i heq; simp [heq]
  · rename_i heq; simp [heq]
  · rename_i heq
    by_cases hm : c.name = "" <;>
      simp [heq, hm, ECD_functions]
  · simp_all

theorem processTopLevel_constructor (c : Contract) (n : ASTNode) :
    (processTopLevel c n).constructor =
      if n.data.nodeType == "ContractDefinition"
      then lastSome (ctorFnsOf n.data.nodes) c.constructor else c.constructor := by
  unfold processTopLevel
  split
  · rename_i heq; simp [heq]
  · rename_i heq; simp [heq]
  · rename_i heq
    by_cases hm : c.name = "" <;>
      simp [heq, hm, ECD_constructor]
  · simp_all

theorem processTopLevel_events (c : Contract) (n : ASTNode) :
    (processTopLevel c n).events =
      if n.data.nodeType == "ContractDefinition"
      then c.events ++ eventsOf n.data.nodes else c.events := by
  unfold processTopLevel
  split
  · rename_i heq; simp [heq]
  · rename_i heq; simp [heq]
  · rename_i heq
    by_cases hm : c.name = "" <;>
      simp [heq, hm, ECD_events]
  · simp_all

theorem processTopLevel_modifiers (c : Contract) (n : ASTNode) :
    (processTopLevel c n).modifiers =
      if n.data.nodeType == "ContractDefinition"
      then c.modifiers ++ modifiersOf n.data.nodes else c.modifiers := by
  unfold processTopLevel
  split
  · rename_i heq; simp [heq]
  · rename_i heq; simp [heq]
  · rename_i heq
    by_cases hm : c.name = "" <;>
      simp [heq, hm, ECD_modifiers]
  · simp_all

theorem processTopLevel_structs (c : Contract) (n : ASTNode) :
    (processTopLevel c n).structs =
      if n.data.nodeType == "ContractDefinition"
      then c.structs ++ structsOf n.data.nodes else c.structs := by
  unfold processTopLevel
  split
  · rename_i heq; simp [heq]
  · rename_i heq; simp [heq]
  · rename_i heq
    by_cases hm : c.name = "" <;>
      simp [heq, hm, ECD_structs]
  · simp_all

theorem processTopLevel_enums (c : Contract) (n : ASTNode) :
    (processTopLevel c n).enums =
      if n.data.nodeType == "ContractDefinition"
      then c.enums ++ enumsOf n.data.nodes else c.enums := by
  unfold processTopLevel
  split
  · rename_i heq; simp [heq]
  · rename_i heq; simp [heq]
  · rename_i heq
    by_cases hm : c.name = "" <;>
      simp [heq, hm, ECD_enums]
  · simp_all

theorem extractInfo_name (ast : AST) (c : Contract) :
    (ExtractContractInfoFromAST ast c).name = nameFold c.name ast.nodes := by
  unfold ExtractContractInfoFromAST nameFold
  generalize ast.nodes = ns
  induction ns generalizing c with
  | nil => rfl
  | cons n ns ih =>
    rw [List.foldl_cons, List.foldl_cons, ih]
    congr 1
    rw [processTopLevel_name]

theorem nameFold_of_ne (nm : String) (ns : List ASTNode) (h : nm ≠ "") :
    nameFold nm ns = nm := by
  induction ns with
  | nil => rfl
  | cons n ns ih =>
    unfold nameFold
    rw [List.foldl_cons]
    have : (if n.data.nodeType == "ContractDefinition" && nm == "" then n.data.name else nm) = nm := by
      simp [h]
    rw [this]
    exact ih

theorem nameFold_of_empty (ns : List ASTNode) :
    nameFold "" ns =
      match firstNamedCD ns with
      | some n => n.data.name
      | none => "" := by
  induction ns with
  | nil => rfl
  | cons n ns ih =>
    by_cases hcd : (n.data.nodeType == "ContractDefinition") = true
    · by_cases hnm : n.data.name = ""
      · have h1 : nameFold "" (n :: ns) = nameFold "" ns := by
          unfold nameFold
          rw [List.foldl_cons]
          simp [hcd, hnm]
        rw [h1, ih]
        have h2 : firstNamedCD (n :: ns) = firstNamedCD ns := by
          unfold firstNamedCD
          rw [List.find?_cons]
          simp [hcd, hnm]
        rw [h2]
      · have h1 : nameFold "" (n :: ns) = nameFold n.data.name ns := by
          unfold nameFold
          rw [List.foldl_cons]
          simp [hcd]
        rw [h1, nameFold_of_ne _ _ hnm]
        have h2 : firstNamedCD (n :: ns) = some n := by
          unfold firstNamedCD
          rw [List.find?_cons]
          have hb : (n.data.name != "") = true := by
            simpa [bne_iff_ne] using hnm
          simp [hcd, hb]
        rw [h2]
    · have h1 : nameFold "" (n :: ns) = nameFold "" ns := by
        unfold nameFold
        rw [List.foldl_cons]
        simp [hcd]
      have h2 : firstNamedCD (n :: ns) = firstNamedCD ns := by
        unfold firstNamedCD
        rw [List.find?_cons]
        simp [hcd]
      rw [h1, ih, h2]

theorem extractInfo_pragma (ast : AST) (c : Contract) :
    (ExtractContractInfoFromAST ast c).pragma = lastVal (pragmasOf ast.nodes) c.pragma := by
  unfold ExtractContractInfoFromAST
  generalize ast.nodes = ns
  induction ns generalizing c with
  | nil => rfl
  | cons n ns ih =>
    rw [List.foldl_cons, ih, processTopLevel_pragma]
    by_cases h : (n.data.nodeType == "PragmaDirective") = true <;>
      simp [pragmasOf, lastVal, List.filter_cons, h]

theorem extractInfo_imports (ast : AST) (c : Contract) :
    (ExtractContractInfoFromAST ast c).imports = c.imports ++ importsOf ast.nodes := by
  unfold ExtractContractInfoFromAST
  generalize ast.nodes = ns
  induction ns generalizing c with
  | nil => simp [importsOf]
  | cons n ns ih =>
    rw [List.foldl_cons, ih, processTopLevel_imports]
    by_cases h : (n.data.nodeType == "ImportDirective") = true <;>
      simp [importsOf, List.filter_cons, h]

theorem extractInfo_inherits (ast : AST) (c : Contract) :
    (ExtractContractInfoFromAST ast c).inherits = c.inherits ++ inheritsOfNodes ast.nodes := by
  unfold ExtractContractInfoFromAST
  generalize ast.nodes = ns
  induction ns generalizing c with
  | nil => simp [inheritsOfNodes, cdNodes]
  | cons n ns ih =>
    rw [List.foldl_cons, ih, processTopLevel_inherits]
    by_cases h : (n.data.nodeType == "ContractDefinition") = true <;>
      simp [inheritsOfNodes, cdNodes, List.filter_cons, h]

theorem extractInfo_variables (ast : AST) (c : Contract) :
    (ExtractContractInfoFromAST ast c).variables' = c.variables' ++ varsOfNodes ast.nodes := by
  unfold ExtractContractInfoFromAST
  generalize ast.nodes = ns
  induction ns generalizing c with
  | nil => simp [varsOfNodes, cdNodes]
  | cons n ns ih =>
    rw [List.foldl_cons, ih, processTopLevel_variables]
    by_cases h : (n.data.nodeType == "ContractDefinition") = true <;>
      simp [varsOfNodes, cdNodes, List.filter_cons, h]

theorem extractInfo_mappings (ast : AST) (c : Contract) :
    (ExtractContractInfoFromAST ast c).mappings = c.mappings ++ mappingsOfNodes ast.nodes := by
  unfold ExtractContractInfoFromAST
  generalize ast.nodes = ns
  induction ns generalizing c with
  | nil => simp [mappingsOfNodes, cdNodes]
  | cons n ns ih =>
    rw [List.foldl_cons, ih, processTopLevel_mappings]
    by_cases h : (n.data.nodeType == "ContractDefinition") = true <;>
      simp [mappingsOfNodes, cdNodes, List.filter_cons, h]

theorem extractInfo_functions (ast : AST) (c : Contract) :
    (ExtractContractInfoFromAST ast c).functions = c.functions ++ fnsOfNodes ast.nodes := by
  unfold ExtractContractInfoFromAST
  generalize ast.nodes = ns
  induction ns generalizing c with
  | nil => simp [fnsOfNodes, cdNodes]
  | cons n ns ih =>
    rw [List.foldl_cons, ih, processTopLevel_functions]
    by_cases h : (n.data.nodeType == "ContractDefinition") = true <;>
      simp [fnsOfNodes, cdNodes, List.filter_cons, h]

theorem extractInfo_constructor (ast : AST) (c : Contract) :
    (ExtractContractInfoFromAST ast c).constructor =
      lastSome (ctorsOfNodes ast.nodes) c.constructor := by
  unfold ExtractContractInfoFromAST
  generalize ast.nodes = ns
  induction ns generalizing c with
  | nil => rfl
  | cons n ns ih =>
    rw [List.foldl_cons, ih, processTopLevel_constructor]
    by_cases h : (n.data.nodeType == "ContractDefinition") = true <;>
      simp [ctorsOfNodes, cdNodes, List.filter_cons, h, lastSome_append]

theorem extractInfo_events (ast : AST) (c : Contract) :
    (ExtractContractInfoFromAST ast c).events = c.events ++ eventsOfNodes ast.nodes := by
  unfold ExtractContractInfoFromAST
  generalize ast.nodes = ns
  induction ns generalizing c with
  | nil => simp [eventsOfNodes, cdNodes]
  | cons n ns ih =>
    rw [List.foldl_cons, ih, processTopLevel_events]
    by_cases h : (n.data.nodeType == "ContractDefinition") = true <;>
      simp [eventsOfNodes, cdNodes, List.filter_cons, h]

theorem extractInfo_modifiers (ast : AST) (c : Contract) :
    (ExtractContractInfoFromAST ast c).modifiers = c.modifiers ++ modifiersOfNodes ast.nodes := by
  unfold ExtractContractInfoFromAST
  generalize ast.nodes = ns
  induction ns generalizing c with
  | nil => simp [modifiersOfNodes, cdNodes]
  | cons n ns ih =>
    rw [List.foldl_cons, ih, processTopLevel_modifiers]
    by_cases h : (n.data.nodeType == "ContractDefinition") = true <;>
      simp [modifiersOfNodes, cdNodes, List.filter_cons, h]

theorem extractInfo_structs (ast : AST) (c : Contract) :
    (ExtractContractInfoFromAST ast c).structs = c.structs ++ structsOfNodes ast.nodes := by
  unfold ExtractContractInfoFromAST
  generalize ast.nodes = ns
  induction ns generalizing c with
  | nil => simp [structsOfNodes, cdNodes]
  | cons n ns ih =>
    rw [List.foldl_cons, ih, processTopLevel_structs]
    by_cases h : (n.data.nodeType == "ContractDefinition") = true <;>
      simp [structsOfNodes, cdNodes, List.filter_cons, h]

theorem extractInfo_enums (ast : AST) (c : Contract) :
    (ExtractContractInfoFromAST ast c).enums = c.enums ++ enumsOfNodes ast.nodes := by
  unfold ExtractContractInfoFromAST
  generalize ast.nodes = ns
  induction ns generalizing c with
  | nil => simp [enumsOfNodes, cdNodes]
  | cons n ns ih =>
    rw [List.foldl_cons, ih, processTopLevel_enums]
    by_cases h : (n.data.nodeType == "ContractDefinition") = true <;>
      simp [enumsOfNodes, cdNodes, List.filter_cons, h]

/-! ### Registry lemmas -/

/-- Number of entries stored under key `k`. -/
def countKey (m : Registry) (k : String) : Nat :=
  (m.filter (fun p => p.1 == k)).length

def insStep (r : Registry) (p : String × Contract) : Registry :=
  insertReg r p.1 p.2

theorem find?_insert_ne (m : Registry) (k k' : String) (h : k' ≠ k) :
    List.find? (fun p => p.1 == k') (List.filter (fun p => decide (p.1 ≠ k)) m)
      = List.find? (fun p => p.1 == k') m := by
  induction m with
  | nil => rfl
  | cons p m ih =>
    rw [List.filter_cons]
    by_cases hp : p.1 = k
    · have hb : (p.1 == k') = false := beq_eq_false_iff_ne.mpr (by rw [hp]; exact Ne.symm h)
      rw [if_neg (by simp [hp]), ih, List.find?_cons, hb]
    · rw [if_pos (by simp [hp]), List.find?_cons, List.find?_cons]
      by_cases hq : p.1 = k'
      · have hbq : (p.1 == k') = true := by simp [hq]
        rw [hbq]
      · have hbq : (p.1 == k') = false := beq_eq_false_iff_ne.mpr hq
        rw [hbq, ih]

theorem filter_insert_ne (m : Registry) (k k' : String) (h : k' ≠ k) :
    List.filter (fun p => p.1 == k') (List.filter (fun p => decide (p.1 ≠ k)) m)
      = List.filter (fun p => p.1 == k') m := by
  induction m with
  | nil => rfl
  | cons p m ih =>
    rw [List.filter_cons]
    by_cases hp : p.1 = k
    · have hb : (p.1 == k') = false := beq_eq_false_iff_ne.mpr (by rw [hp]; exact Ne.symm h)
      rw [if_neg (by simp [hp]), ih, List.filter_cons, hb]
      simp
    · rw [if_pos (by simp [hp]), List.filter_cons, List.filter_cons]
      by_cases hq : p.1 = k'
      · have hbq : (p.1 == k') = true := by simp [hq]
        rw [hbq, if_pos rfl, if_pos rfl, ih]
      · have hbq : (p.1 == k') = false := beq_eq_false_iff_ne.mpr hq
        rw [hbq, if_neg (by simp), if_neg (by simp), ih]

theorem findReg_insert (m : Registry) (k k' : String) (v : Contract) :
    findReg (insertReg m k v) k' = if k' = k then some v else findReg m k' := by
  unfold insertReg findReg
  rw [List.find?_append]
  by_cases h : k' = k
  · subst h
    have h1 : List.find? (fun p => p.1 == k') (List.filter (fun p => decide (p.1 ≠ k')) m)
        = none := by
      rw [List.find?_eq_none]
      intro x hx
      have hq := List.of_mem_filter hx
      simp at hq ⊢
      exact hq
    rw [h1]
    simp [List.find?_cons]
  · rw [find?_insert_ne m k k' h]
    have h2 : List.find? (fun p => p.1 == k') [(k, v)] = none := by
      simp [List.find?_cons, beq_eq_false_iff_ne.mpr (Ne.symm h)]
    rw [h2]
    simp [h]

theorem countKey_insert (m : Registry) (k k' : String) (v : Contract) :
    countKey (insertReg m k v) k' = if k' = k then 1 else countKey m k' := by
  unfold insertReg countKey
  rw [List.filter_append]
  by_cases h : k' = k
  · subst h
    have h1 : List.filter (fun p => p.1 == k') (List.filter (fun p => decide (p.1 ≠ k')) m)
        = [] := by
      rw [List.filter_eq_nil_iff]
      intro x hx
      have hq := List.of_mem_filter hx
      simp at hq ⊢
      exact hq
    rw [h1]
    simp [List.filter_cons]
  · rw [filter_insert_ne m k k' h]
    have h2 : List.filter (fun p => p.1 == k') [(k, v)] = [] := by
      simp [List.filter_cons, beq_eq_false_iff_ne.mpr (Ne.symm h)]
    rw [h2]
    simp [h]

theorem lastVal_cons {α : Type} (x : α) (l : List α) (d : α) :
    lastVal (x :: l) d = lastVal l x := rfl

theorem findReg_foldl_ins (l : List (String × Contract)) (r : Registry) (k : String) :
    findReg (l.foldl insStep r) k =
      lastVal ((l.filter (fun p => p.1 == k)).map (fun p => some p.2)) (findReg r k) := by
  induction l generalizing r with
  | nil => rfl
  | cons p l ih =>
    rw [List.foldl_cons, ih, List.filter_cons]
    by_cases h : p.1 = k
    · have hb : (p.1 == k) = true := by simp [h]
      rw [if_pos hb, List.map_cons, lastVal_cons]
      congr 1
      unfold insStep
      rw [findReg_insert]
      simp [h]
    · have hb : (p.1 == k) = false := beq_eq_false_iff_ne.mpr h
      rw [if_neg (by simp [hb])]
      congr 1
      unfold insStep
      rw [findReg_insert]
      simp [Ne.symm h]

theorem countKey_foldl_ins (l : List (String × Contract)) (r : Registry) (k : String) :
    countKey (l.foldl insStep r) k =
      if (l.filter (fun p => p.1 == k)) = [] then countKey r k else 1 := by
  induction l generalizing r with
  | nil => simp
  | cons p l ih =>
    rw [List.foldl_cons, ih]
    by_cases h : p.1 = k
    · have hfc : List.filter (fun p => p.1 == k) (p :: l)
          = p :: List.filter (fun p => p.1 == k) l := by
        rw [List.filter_cons, if_pos (by simp [h])]
      have hc : countKey (insStep r p) k = 1 := by
        unfold insStep
        rw [countKey_insert]
        simp [h]
      rw [hfc, hc, if_neg (List.cons_ne_nil _ _)]
      simp
    · have hb : (p.1 == k) = false := beq_eq_false_iff_ne.mpr h
      have hfc : List.filter (fun p => p.1 == k) (p :: l)
          = List.filter (fun p => p.1 == k) l := by
        rw [List.filter_cons, hb]
        simp
      have hc : countKey (insStep r p) k = countKey r k := by
        unfold insStep
        rw [countKey_insert]
        simp [Ne.symm h]
      rw [hfc, hc]

/-- What one walk entry contributes to the registry: `some (name, contract)`
when it is a regular `.json` file that parses into a contract with a
non-empty name, otherwise nothing. -/
def entryYields (e : WalkEntry) : Option (String × Contract) :=
  match e.accessErr with
  | some _ => none
  | none =>
    if !e.isDir && goExt e.path == ".json" then
      match ParseContractFile e.path e.data with
      | .error _ => none
      | .ok contract => if contract.name != "" then some (contract.name, contract) else none
    else none

/-- Decides whether the walk callback succeeds on an entry (for any registry). -/
def entryOkB (e : WalkEntry) : Bool :=
  match e.accessErr with
  | some _ => false
  | none =>
    if !e.isDir && goExt e.path == ".json" then
      match ParseContractFile e.path e.data with
      | .error _ => false
      | .ok _ => true
    else true

theorem processEntry_ok_shape (r r' : Registry) (e : WalkEntry)
    (h : processEntry r e = .ok r') :
    r' = match entryYields e with
      | some p => insertReg r p.1 p.2
      | none => r := by
  unfold processEntry at h
  unfold entryYields
  cases ha : e.accessErr with
  | some msg => rw [ha] at h; exact absurd h (by simp)
  | none =>
    rw [ha] at h
    by_cases hf : (!e.isDir && goExt e.path == ".json") = true
    · rw [if_pos hf] at h
      rw [if_pos hf]
      cases hp : ParseContractFile e.path e.data with
      | error err => rw [hp] at h; exact absurd h (by simp)
      | ok contract =>
        rw [hp] at h
        by_cases hn : (contract.name != "") = true <;> simp_all
    · rw [if_neg hf] at h
      rw [if_neg hf]
      simp_all

theorem processEntry_ok_of_entryOkB (r : Registry) (e : WalkEntry)
    (h : entryOkB e = true) : ∃ r', processEntry r e = .ok r' := by
  unfold entryOkB at h
  unfold processEntry
  cases ha : e.accessErr with
  | some msg => rw [ha] at h; simp at h
  | none =>
    rw [ha] at h
    by_cases hf : (!e.isDir && goExt e.path == ".json") = true
    · rw [if_pos hf] at h ⊢
      cases hp : ParseContractFile e.path e.data with
      | error err => rw [hp] at h; simp at h
      | ok contract => exact ⟨_, rfl⟩
    · rw [if_neg hf]
      exact ⟨_, rfl⟩

theorem processEntry_error_of_parse (r : Registry) (e : WalkEntry) (err : ParseError)
    (ha : e.accessErr = none) (hd : e.isDir = false) (hx : goExt e.path = ".json")
    (hp : ParseContractFile e.path e.data = .error err) :
    processEntry r e = .error (.fileErr e.path err) := by
  unfold processEntry
  rw [ha, hd, hx, hp]
  simp

theorem foldlM_processEntry_ok (es : List WalkEntry) (r m : Registry)
    (h : es.foldlM processEntry r = .ok m) :
    m = (es.filterMap entryYields).foldl insStep r := by
  induction es generalizing r with
  | nil =>
    simp only [List.foldlM_nil, List.filterMap_nil, List.foldl_nil]
    exact (Except.ok.inj h).symm
  | cons e es ih =>
    rw [List.foldlM_cons] at h
    cases hp : processEntry r e with
    | error err =>
      rw [hp] at h
      have hb : ((Except.error err : Except ParseError Registry) >>=
          fun r' => es.foldlM processEntry r') = Except.error err := rfl
      rw [hb] at h
      exact absurd h (by simp)
    | ok r' =>
      rw [hp] at h
      have hb : ((Except.ok r' : Except ParseError Registry) >>=
          fun r' => es.foldlM processEntry r') = es.foldlM processEntry r' := rfl
      rw [hb] at h
      have h1 := ih r' h
      have h2 := processEntry_ok_shape r r' e hp
      rw [List.filterMap_cons]
      cases hy : entryYields e with
      | none => rw [hy] at h2; simp_all
      | some p => rw [hy] at h2; simp_all [insStep]

theorem foldlM_processEntry_pre_ok (pre : List WalkEntry) (r : Registry)
    (hpre : ∀ e ∈ pre, entryOkB e = true) :
    ∃ r', pre.foldlM processEntry r = .ok r' := by
  induction pre generalizing r with
  | nil => exact ⟨r, rfl⟩
  | cons e es ih =>
    obtain ⟨r', hr'⟩ := processEntry_ok_of_entryOkB r e (hpre e (by simp))
    obtain ⟨m, hm⟩ := ih r' (fun x hx => hpre x (by simp [hx]))
    refine ⟨m, ?_⟩
    rw [List.foldlM_cons, hr']
    exact hm

/-! ### Concrete node builders (used in counterexamples and witnesses) -/

/-- The Go zero value of `ASTNode`'s field record (what `json.Unmarshal`
starts from for absent fields). -/
def emptyNodeData : NodeData :=
  { nodeType := ""
    name := ""
    absolutePath := ""
    file := ""
    baseContracts := []
    members := []
    modifiers := []
    parameters := none
    returnParameters := none
    visibility := ""
    stateMutability := ""
    kind := ""
    baseFunctions := []
    overrides := none
    functionSelector := ""
    storageLocation := ""
    constant := false
    mutability := ""
    stateVariable := false
    value := none
    typeName := none
    literals := []
    nodes := []
    operator := ""
    subExpression := none
    expression := none
    arguments := []
    hexValue := ""
    leftExpression := none
    rightExpression := none
    indexed := none }

/-- A contract-definition node with a name, base contracts and members. -/
def cdNode (nm : String) (bases : List String) (members : List ASTNode) : ASTNode :=
  .mk { emptyNodeData with
          nodeType := "ContractDefinition"
          name := nm
          baseContracts := bases.map (fun b => { baseName := { name := b } })
          nodes := members }

/-- An event-definition member node with no parameters. -/
def eventNode (nm : String) : ASTNode :=
  .mk { emptyNodeData with
          nodeType := "EventDefinition"
          name := nm }

/-- A pragma-directive node. -/
def pragmaNode (lits : List String) : ASTNode :=
  .mk { emptyNodeData with
          nodeType := "PragmaDirective"
          literals := lits }

/-- A function-definition member node of a given name and kind. -/
def fnNode (nm knd : String) : ASTNode :=
  .mk { emptyNodeData with
          nodeType := "FunctionDefinition"
          name := nm
          kind := knd }

/-- A variable-declaration member node with a type subtree. -/
def varNode (nm : String) (t : Option TypeName) : ASTNode :=
  .mk { emptyNodeData with
          nodeType := "VariableDeclaration"
          name := nm
          typeName := t }

/-- An elementary type-name subtree. -/
def elemType (nm : String) : TypeName :=
  .mk { nodeType := "ElementaryTypeName"
        name := nm
        path := ""
        baseType := none
        length := none
        keyType := none
        valueType := none
        typeDescriptions := none
        pathNode := none }

/-- A mapping type-name subtree. -/
def mappingType (k v : TypeName) : TypeName :=
  .mk { nodeType := "Mapping"
        name := ""
        path := ""
        baseType := none
        length := none
        keyType := some k
        valueType := some v
        typeDescriptions := none
        pathNode := none }

/-- A literal expression node carrying a scalar value. -/
def litNode (v : GoValue) : ASTNode :=
  .mk { emptyNodeData with
          nodeType := "Literal"
          value := some v }

/-- A binary-operation expression node. -/
def binOpNode (l : ASTNode) (op : String) (r : ASTNode) : ASTNode :=
  .mk { emptyNodeData with
          nodeType := "BinaryOperation"
          operator := op
          leftExpression := some l
          rightExpression := some r }

/-- A unary-operation expression node. -/
def unOpNode (op : String) (sub : ASTNode) : ASTNode :=
  .mk { emptyNodeData with
          nodeType := "UnaryOperation"
          operator := op
          subExpression := some sub }

/-! ### Claims -/

/-- Definitional unfolding of `ParseContractFile` on a decoded document. -/
theorem ParseContractFile_decoded (path : String) (f : ABIFile) :
    ParseContractFile path (.decoded f)
      = if f.ast.nodes.length > 0
        then .ok (ExtractContractInfoFromAST f.ast { emptyContract with name := f.contractName })
        else .error (.missingAst path) := rfl

/-- A successful load of a decoded document is exactly the extraction from
the document-level name, and implies the node list is non-empty. -/
theorem ParseContractFile_decoded_ok (path : String) (f : ABIFile) (c : Contract)
    (h : ParseContractFile path (.decoded f) = .ok c) :
    c = ExtractContractInfoFromAST f.ast { emptyContract with name := f.contractName } ∧
    f.ast.nodes ≠ [] := by
  rw [ParseContractFile_decoded] at h
  by_cases hn : f.ast.nodes.length > 0
  · rw [if_pos hn] at h
    refine ⟨(Except.ok.inj h).symm, ?_⟩
    intro hnil
    rw [hnil] at hn
    simp at hn
  · rw [if_neg hn] at h
    exact absurd h (by simp)

/-- C3: a variable-declaration member is appended to Mappings if and only if
its type subtree has the mapping node kind, and otherwise to Variables; it
never lands in both collections or in neither, and over a whole
contract-definition node the two collections receive exactly the mapping-
and non-mapping declarations respectively. -/
theorem claim3_variable_placement (c : Contract) (m : ASTNode) (cd : ASTNode)
    (h : m.data.nodeType = "VariableDeclaration") :
    (isMappingDecl m = true →
        (processMember c m).mappings = c.mappings ++ [ExtractVariable m] ∧
        (processMember c m).variables' = c.variables') ∧
    (isMappingDecl m = false →
        (processMember c m).variables' = c.variables' ++ [ExtractVariable m] ∧
        (processMember c m).mappings = c.mappings) ∧
    (ExtractContractDefinition cd c).mappings = c.mappings ++ mappingVarsOf cd.data.nodes ∧
    (ExtractContractDefinition cd c).variables' = c.variables' ++ plainVarsOf cd.data.nodes := by
  refine ⟨?_, ?_, ECD_mappings cd c, ECD_variables cd c⟩
  · intro hm
    rw [processMember_mappings, processMember_variables]
    simp [h, hm]
  · intro hm
    rw [processMember_variables, processMember_mappings]
    simp [h, hm]

def c3mapNode : ASTNode :=
  varNode "balances" (some (mappingType (elemType "address") (elemType "uint256")))

def c3plainNode : ASTNode := varNode "owner" (some (elemType "address"))

/-- C3 witness: the theorem applied to concrete mapping and non-mapping
variable declarations. -/
theorem claim3_witness :
    (c3mapNode.data.nodeType = "VariableDeclaration" ∧
      isMappingDecl c3mapNode = true ∧
      (processMember emptyContract c3mapNode).mappings = [ExtractVariable c3mapNode] ∧
      (processMember emptyContract c3mapNode).variables' = []) ∧
    (c3plainNode.data.nodeType = "VariableDeclaration" ∧
      isMappingDecl c3plainNode = false ∧
      (processMember emptyContract c3plainNode).variables' = [ExtractVariable c3plainNode] ∧
      (processMember emptyContract c3plainNode).mappings = []) := by
  have h1 := (claim3_variable_placement emptyContract c3mapNode c3mapNode rfl).1 rfl
  have h2 := (claim3_variable_placement emptyContract c3plainNode c3plainNode rfl).2.1 rfl
  exact ⟨⟨rfl, rfl, h1.1, h1.2⟩, ⟨rfl, rfl, h2.1, h2.2⟩⟩

/-- C4: in every successfully loaded contract, no function of constructor
kind appears in the Functions collection, and the Constructor slot holds
exactly the last constructor definition processed (none when there is none;
earlier ones are overwritten). -/
theorem claim4_constructor_slot (path : String) (f : ABIFile) (c : Contract)
    (h : ParseContractFile path (.decoded f) = .ok c) :
    (∀ fn ∈ c.functions, fn.kind ≠ "constructor") ∧
    c.constructor = (ctorsOfNodes f.ast.nodes).getLast? := by
  obtain ⟨hc, -⟩ := ParseContractFile_decoded_ok path f c h
  subst hc
  constructor
  · intro fn hfn
    rw [extractInfo_functions] at hfn
    have hinit : ({ emptyContract with name := f.contractName } : Contract).functions = [] := rfl
    rw [hinit, List.nil_append] at hfn
    unfold fnsOfNodes at hfn
    rw [List.mem_flatMap] at hfn
    obtain ⟨cd, hcd, hfn⟩ := hfn
    unfold nonCtorFnsOf at hfn
    rw [List.mem_map] at hfn
    obtain ⟨mem, hmem, hfneq⟩ := hfn
    have hcond := List.of_mem_filter hmem
    simp only [Bool.and_eq_true, Bool.not_eq_true', beq_eq_false_iff_ne] at hcond
    rw [← hfneq, ExtractFunction_kind]
    exact hcond.2
  · rw [extractInfo_constructor]
    have hinit : ({ emptyContract with name := f.contractName } : Contract).constructor = none := rfl
    rw [hinit, lastSome_eq_getLast?]

def c4doc : ABIFile :=
  { contractName := "T"
    ast := { nodes := [cdNode "T" []
      [fnNode "" "constructor", fnNode "f" "function", fnNode "" "constructor"]] } }

def c4res : Contract :=
  ExtractContractInfoFromAST c4doc.ast { emptyContract with name := c4doc.contractName }

/-- C4 witness: the theorem applied to a document declaring two constructors. -/
theorem claim4_witness :
    (∀ fn ∈ c4res.functions, fn.kind ≠ "constructor") ∧
    c4res.constructor = (ctorsOfNodes c4doc.ast.nodes).getLast? :=
  claim4_constructor_slot "c4.json" c4doc c4res rfl

/-- C5: a decoded document with zero top-level nodes loads to a missing-AST
error carrying the file path and yields no Contract; a decoded document with
at least one top-level node loads successfully (so it never returns that
error). -/
theorem claim5_missing_ast (path : String) (f : ABIFile) :
    (f.ast.nodes = [] →
      ParseContractFile path (.decoded f) = .error (.missingAst path)) ∧
    (f.ast.nodes ≠ [] →
      ∃ c, ParseContractFile path (.decoded f) = .ok c) := by
  constructor
  · intro hnil
    rw [ParseContractFile_decoded]
    rw [if_neg (by rw [hnil]; simp)]
  · intro hne
    rw [ParseContractFile_decoded]
    rw [if_pos (by cases hcs : f.ast.nodes with
      | nil => exact absurd hcs hne
      | cons a l => simp)]

    exact ⟨_, rfl⟩

def c5empty : ABIFile := { contractName := "E", ast := { nodes := [] } }

def c5nonempty : ABIFile :=
  { contractName := "N", ast := { nodes := [pragmaNode ["solidity"]] } }

/-- C5 witness: the theorem applied to a document with zero top-level nodes
and to one with a single top-level node. -/
theorem claim5_witness :
    ParseContractFile "e.json" (.decoded c5empty) = .error (.missingAst "e.json") ∧
    ∃ c, ParseContractFile "n.json" (.decoded c5nonempty) = .ok c :=
  ⟨(claim5_missing_ast "e.json" c5empty).1 rfl,
   (claim5_missing_ast "n.json" c5nonempty).2 (by simp [c5nonempty])⟩

/-- C9: a pragma-directive node is rendered by wrapping the concatenation of
its literal tokens as a pragma statement (for literals
`["solidity","^","0.8",".0"]` exactly `"pragma solidity^0.8.0;"`), and the
loaded contract's Pragma is the rendering of the last pragma-directive
top-level node processed (empty when there is none). -/
theorem claim9_pragma (path : String) (f : ABIFile) (c : Contract)
    (h : ParseContractFile path (.decoded f) = .ok c) :
    (∀ n : ASTNode, n.data.literals = ["solidity", "^", "0.8", ".0"] →
      ExtractPragmaDirective n = "pragma solidity^0.8.0;") ∧
    c.pragma = ((pragmasOf f.ast.nodes).getLast?).getD "" := by
  constructor
  · intro n hn
    unfold ExtractPragmaDirective
    rw [hn]
    rfl
  · obtain ⟨hc, -⟩ := ParseContractFile_decoded_ok path f c h
    subst hc
    rw [extractInfo_pragma, lastVal_eq_getLast?]
    rfl

def c9doc : ABIFile :=
  { contractName := "T"
    ast := { nodes := [pragmaNode ["solidity", "^", "0.8", ".0"],
                       pragmaNode ["solidity", "^", "0.8", ".20"]] } }

def c9res : Contract :=
  ExtractContractInfoFromAST c9doc.ast { emptyContract with name := c9doc.contractName }

/-- C9 witness: the theorem applied to a document with two pragma
directives; the instantiated conclusions are also evaluated concretely. -/
theorem claim9_witness :
    ((∀ n : ASTNode, n.data.literals = ["solidity", "^", "0.8", ".0"] →
        ExtractPragmaDirective n = "pragma solidity^0.8.0;") ∧
      c9res.pragma = ((pragmasOf c9doc.ast.nodes).getLast?).getD "") ∧
    c9res.pragma = "pragma solidity^0.8.20;" :=
  ⟨claim9_pragma "c9.json" c9doc c9res rfl, rfl⟩

/-- C10: when the document-level contract-name field is non-empty the loaded
Contract's name equals that field (every contract-definition node's name is
ignored); when it is empty, the name is adopted from the first
contract-definition node carrying a non-empty name (empty when there is
none). -/
theorem claim10_name_precedence (path : String) (f : ABIFile) (c : Contract)
    (h : ParseContractFile path (.decoded f) = .ok c) :
    (f.contractName ≠ "" → c.name = f.contractName) ∧
    (f.contractName = "" →
      c.name = match firstNamedCD f.ast.nodes with
        | some n => n.data.name
        | none => "") := by
  obtain ⟨hc, -⟩ := ParseContractFile_decoded_ok path f c h
  subst hc
  have hinit : ({ emptyContract with name := f.contractName } : Contract).name
      = f.contractName := rfl
  constructor
  · intro hnm
    rw [extractInfo_name, hinit, nameFold_of_ne _ _ hnm]
  · intro hnm
    rw [extractInfo_name, hinit, hnm, nameFold_of_empty]

def c10doc1 : ABIFile :=
  { contractName := "DocName"
    ast := { nodes := [cdNode "NodeName" [] []] } }

def c10res1 : Contract :=
  ExtractContractInfoFromAST c10doc1.ast { emptyContract with name := c10doc1.contractName }

def c10doc2 : ABIFile :=
  { contractName := ""
    ast := { nodes := [cdNode "NodeName" [] []] } }

def c10res2 : Contract :=
  ExtractContractInfoFromAST c10doc2.ast { emptyContract with name := c10doc2.contractName }

/-- C10 witness: the theorem applied to a document whose top-level name is
set (the node name is ignored) and to one whose top-level name is empty (the
node name is adopted); the resulting names are also evaluated concretely. -/
theorem claim10_witness :
    c10res1.name = c10doc1.contractName ∧ c10res1.name = "DocName" ∧
    (c10res2.name = match firstNamedCD c10doc2.ast.nodes with
      | some n => n.data.name
      | none => "") ∧ c10res2.name = "NodeName" :=
  ⟨(claim10_name_precedence "a.json" c10doc1 c10res1 rfl).1 (by decide), rfl,
   (claim10_name_precedence "b.json" c10doc2 c10res2 rfl).2 rfl, rfl⟩

def c1doc : ABIFile :=
  { contractName := ""
    ast := { nodes := [cdNode "A" ["X"] [], cdNode "B" ["Y"] [eventNode "E"]] } }

def c1res : Contract :=
  ExtractContractInfoFromAST c1doc.ast { emptyContract with name := c1doc.contractName }

/-- C1 counterexample: on a document with two contract-definition nodes
(`A` with base `X` and no members; `B` with base `Y` and one event member),
the second node's base-contract list and members are NOT ignored: the
extracted contract inherits `["X", "Y"]` and carries `B`'s event, where the
claim says it would inherit only `["X"]` and have no events. -/
theorem claim1_counterexample :
    c1res.name = "A" ∧
    c1res.inherits = ["X", "Y"] ∧
    c1res.events = [{ name := "E", parameters := [] }] ∧
    ¬(c1res.inherits = ["X"] ∧ c1res.events = []) := by
  refine ⟨rfl, rfl, rfl, ?_⟩
  intro hcontra
  have h2 : c1res.inherits = ["X", "Y"] := rfl
  rw [hcontra.1] at h2
  exact absurd h2 (by decide)

/-- C1 amended: when the contract name is still empty it is adopted from the
first contract-definition node with a non-empty name, but the members and
base-contract lists of EVERY contract-definition node (first and subsequent
alike) are processed into the Contract, appended in encounter order. -/
theorem claim1_amended (ast : AST) (c : Contract) :
    (c.name = "" →
      (ExtractContractInfoFromAST ast c).name =
        match firstNamedCD ast.nodes with
        | some n => n.data.name
        | none => "") ∧
    (ExtractContractInfoFromAST ast c).inherits = c.inherits ++ inheritsOfNodes ast.nodes ∧
    (ExtractContractInfoFromAST ast c).variables' = c.variables' ++ varsOfNodes ast.nodes ∧
    (ExtractContractInfoFromAST ast c).mappings = c.mappings ++ mappingsOfNodes ast.nodes ∧
    (ExtractContractInfoFromAST ast c).functions = c.functions ++ fnsOfNodes ast.nodes ∧
    (ExtractContractInfoFromAST ast c).events = c.events ++ eventsOfNodes ast.nodes ∧
    (ExtractContractInfoFromAST ast c).modifiers = c.modifiers ++ modifiersOfNodes ast.nodes ∧
    (ExtractContractInfoFromAST ast c).structs = c.structs ++ structsOfNodes ast.nodes ∧
    (ExtractContractInfoFromAST ast c).enums = c.enums ++ enumsOfNodes ast.nodes := by
  refine ⟨?_, extractInfo_inherits ast c, extractInfo_variables ast c,
    extractInfo_mappings ast c, extractInfo_functions ast c, extractInfo_events ast c,
    extractInfo_modifiers ast c, extractInfo_structs ast c, extractInfo_enums ast c⟩
  intro hnm
  rw [extractInfo_name, hnm, nameFold_of_empty]

/-- C1 amended witness: the amended theorem applied to the two-contract
document of the counterexample. -/
theorem claim1_amended_witness :
    emptyContract.name = "" ∧
    (c1res.name = match firstNamedCD c1doc.ast.nodes with
      | some n => n.data.name
      | none => "") ∧
    c1res.inherits = emptyContract.inherits ++ inheritsOfNodes c1doc.ast.nodes ∧
    c1res.events = emptyContract.events ++ eventsOfNodes c1doc.ast.nodes := by
  have h := claim1_amended c1doc.ast { emptyContract with name := c1doc.contractName }
  exact ⟨rfl, h.1 rfl, h.2.1, h.2.2.2.2.2.1⟩

def c2binNode : ASTNode := binOpNode (litNode (.str "1")) "+" (litNode (.str "2"))

def c2unNode : ASTNode := unOpNode "-" (litNode (.str "1"))

/-- C2 (code-bug evaluation): the literal sub-expressions render as `"1"` and
`"2"` on their own, yet the binary-operation node `1 + 2` renders as
`"( + )"` — not `"(1 + 2)"` — and the unary-operation node `-1` renders as
just `"-"`, because the recursive calls hand a node pointer to the
`interface{}` type switch of `extractValue`, which has no case for it and
falls through to the default returning `""`. -/
theorem claim2_code_eval :
    extractValueFromNode (some (litNode (.str "1"))) = "1" ∧
    extractValueFromNode (some (litNode (.str "2"))) = "2" ∧
    extractValue (.obj c2binNode) = "( + )" ∧
    extractValueFromNode (some c2binNode) = "( + )" ∧
    extractValueFromNode (some c2unNode) = "-" := by
  refine ⟨?_, ?_, ?_, ?_, ?_⟩ <;>
    simp [extractValue, extractValueFromNode, c2binNode, c2unNode, litNode, binOpNode,
      unOpNode, emptyNodeData, ASTNode.data, goFmtValue]

/-- C6: the type renderer is total over all type-descriptor shapes: a null
type reference and every unrecognized node kind render as `""`; a mapping
renders as `"mapping(K => V)"` with the key and value types rendered
recursively; an array with a fixed length literal renders as `"T[N]"`; an
array without a length renders as `"T[]"`. -/
theorem claim6_render_type :
    extractTypeName none = "" ∧
    (∀ d : TNData,
      d.nodeType ≠ "ElementaryTypeName" → d.nodeType ≠ "UserDefinedTypeName" →
      d.nodeType ≠ "Mapping" → d.nodeType ≠ "ArrayTypeName" →
      extractTypeName (some (.mk d)) = "") ∧
    (∀ d : TNData, d.nodeType = "Mapping" →
      extractTypeName (some (.mk d)) =
        "mapping(" ++ extractTypeName d.keyType ++ " => " ++ extractTypeName d.valueType ++ ")") ∧
    (∀ (d : TNData) (n : Int), d.nodeType = "ArrayTypeName" → d.length = some (.num n) →
      extractTypeName (some (.mk d)) = extractTypeName d.baseType ++ "[" ++ toString n ++ "]") ∧
    (∀ d : TNData, d.nodeType = "ArrayTypeName" → d.length = none →
      extractTypeName (some (.mk d)) = extractTypeName d.baseType ++ "[]") := by
  refine ⟨by simp [extractTypeName], ?_, ?_, ?_, ?_⟩
  · intro d h1 h2 h3 h4
    simp only [extractTypeName]
  · intro d hd
    simp only [extractTypeName]
    rw [hd]
    rfl
  · intro d n hd hl
    simp only [extractTypeName]
    rw [hd, hl]
    rfl
  · intro d hd hl
    simp only [extractTypeName]
    rw [hd, hl]
    rfl

def c6map : TNData := (mappingType (elemType "address") (elemType "uint256")).data

def c6arrLen : TNData :=
  { nodeType := "ArrayTypeName"
    name := ""
    path := ""
    baseType := some (elemType "uint8")
    length := some (.num 3)
    keyType := none
    valueType := none
    typeDescriptions := none
    pathNode := none }

def c6arrDyn : TNData :=
  { nodeType := "ArrayTypeName"
    name := ""
    path := ""
    baseType := some (elemType "uint8")
    length := none
    keyType := none
    valueType := none
    typeDescriptions := none
    pathNode := none }

def c6unk : TNData :=
  { nodeType := "FancyFutureKind"
    name := "x"
    path := ""
    baseType := none
    length := none
    keyType := none
    valueType := none
    typeDescriptions := none
    pathNode := none }

/-- C6 witness: the theorem applied to null, unrecognized, mapping, fixed
array and dynamic array type descriptors. -/
theorem claim6_witness :
    extractTypeName none = "" ∧
    extractTypeName (some (.mk c6unk)) = "" ∧
    extractTypeName (some (.mk c6map)) =
      "mapping(" ++ extractTypeName c6map.keyType ++ " => "
        ++ extractTypeName c6map.valueType ++ ")" ∧
    extractTypeName (some (.mk c6arrLen)) =
      extractTypeName c6arrLen.baseType ++ "[" ++ toString (3 : Int) ++ "]" ∧
    extractTypeName (some (.mk c6arrDyn)) = extractTypeName c6arrDyn.baseType ++ "[]" :=
  ⟨claim6_render_type.1,
   claim6_render_type.2.1 c6unk (by decide) (by decide) (by decide) (by decide),
   claim6_render_type.2.2.1 c6map rfl,
   claim6_render_type.2.2.2.1 c6arrLen 3 rfl rfl,
   claim6_render_type.2.2.2.2 c6arrDyn rfl rfl⟩

theorem lastVal_append_singleton {α : Type} (l : List α) (x : α) (d : α) :
    lastVal (l ++ [x]) d = x := by
  rw [lastVal_append]
  rfl

/-- C7: when two successfully loaded documents yield contracts with the same
non-empty name (and no later document yields that name again), the built
registry holds exactly one entry under that name, equal to the
later-processed document's contract. -/
theorem claim7_registry_overwrite
    (pre mid post : List WalkEntry) (e1 e2 : WalkEntry)
    (n : String) (c1 c2 : Contract) (m : Registry)
    (h1 : entryYields e1 = some (n, c1))
    (h2 : entryYields e2 = some (n, c2))
    (_hn : n ≠ "")
    (hpost : ∀ e ∈ post, ∀ c : Contract, entryYields e ≠ some (n, c))
    (hok : ParseAllContracts (pre ++ e1 :: (mid ++ e2 :: post)) = .ok m) :
    findReg m n = some c2 ∧ countKey m n = 1 := by
  unfold ParseAllContracts at hok
  have hm := foldlM_processEntry_ok _ _ _ hok
  have hY : (pre ++ e1 :: (mid ++ e2 :: post)).filterMap entryYields
      = pre.filterMap entryYields
        ++ (n, c1) :: (mid.filterMap entryYields ++ (n, c2) :: post.filterMap entryYields) := by
    simp only [List.filterMap_append, List.filterMap_cons, h1, h2]
  have hpostF : (post.filterMap entryYields).filter (fun p => p.1 == n) = [] := by
    rw [List.filter_eq_nil_iff]
    intro p hp
    simp only [List.mem_filterMap] at hp
    obtain ⟨e, he, hye⟩ := hp
    cases hq : (p.1 == n) with
    | false => simp
    | true =>
      exfalso
      rw [beq_iff_eq] at hq
      apply hpost e he p.2
      rw [hye, ← hq]
  have hfil : ((pre.filterMap entryYields
      ++ (n, c1) :: (mid.filterMap entryYields ++ (n, c2) :: post.filterMap entryYields)).filter
        (fun p => p.1 == n))
      = (pre.filterMap entryYields).filter (fun p => p.1 == n)
        ++ (n, c1) :: ((mid.filterMap entryYields).filter (fun p => p.1 == n) ++ [(n, c2)]) := by
    rw [List.filter_append, List.filter_cons, if_pos (by simp), List.filter_append,
      List.filter_cons, if_pos (by simp), hpostF]
  subst hm
  rw [hY]
  constructor
  · rw [findReg_foldl_ins, hfil, List.map_append, List.map_cons, List.map_append,
      lastVal_append, lastVal_cons, lastVal_append]
    rfl
  · rw [countKey_foldl_ins, hfil]
    rw [if_neg (by simp)]

def mkEntry (p : String) (f : ABIFile) : WalkEntry :=
  { path := p
    isDir := false
    accessErr := none
    data := .decoded f }

def c7doc1 : ABIFile :=
  { contractName := "Token", ast := { nodes := [pragmaNode ["solidity", "^", "0.8", ".0"]] } }

def c7doc2 : ABIFile :=
  { contractName := "Token", ast := { nodes := [pragmaNode ["solidity", "^", "0.8", ".20"]] } }

def c7con1 : Contract :=
  ExtractContractInfoFromAST c7doc1.ast { emptyContract with name := c7doc1.contractName }

def c7con2 : Contract :=
  ExtractContractInfoFromAST c7doc2.ast { emptyContract with name := c7doc2.contractName }

def c7entries : List WalkEntry := [mkEntry "a.json" c7doc1, mkEntry "b.json" c7doc2]

def c7reg : Registry :=
  match ParseAllContracts c7entries with
  | .ok m => m
  | .error _ => []

/-- C7 witness: the theorem applied to two documents both named `Token`,
processed in order; the registry keeps only the later contract. -/
theorem claim7_witness :
    entryYields (mkEntry "a.json" c7doc1) = some ("Token", c7con1) ∧
    entryYields (mkEntry "b.json" c7doc2) = some ("Token", c7con2) ∧
    ("Token" : String) ≠ "" ∧
    ParseAllContracts c7entries = .ok c7reg ∧
    findReg c7reg "Token" = some c7con2 ∧ countKey c7reg "Token" = 1 := by
  have h := claim7_registry_overwrite [] [] [] (mkEntry "a.json" c7doc1)
    (mkEntry "b.json" c7doc2) "Token" c7con1 c7con2 c7reg rfl rfl (by decide)
    (by intro e he; exact absurd he (by simp)) rfl
  exact ⟨rfl, rfl, by decide, rfl, h.1, h.2⟩

/-- C8: if loading any single document fails (I/O, decode, or missing AST),
the registry build returns that error wrapped with the offending path, and
no registry map at all — never a partial registry. -/
theorem claim8_all_or_nothing
    (pre post : List WalkEntry) (bad : WalkEntry) (err : ParseError)
    (hpre : ∀ e ∈ pre, entryOkB e = true)
    (ha : bad.accessErr = none) (hd : bad.isDir = false) (hx : goExt bad.path = ".json")
    (hp : ParseContractFile bad.path bad.data = .error err) :
    ParseAllContracts (pre ++ bad :: post) = .error (.fileErr bad.path err) ∧
    ∀ m : Registry, ParseAllContracts (pre ++ bad :: post) ≠ .ok m := by
  obtain ⟨r', hr'⟩ := foldlM_processEntry_pre_ok pre [] hpre
  have h2 : processEntry r' bad = .error (.fileErr bad.path err) :=
    processEntry_error_of_parse r' bad err ha hd hx hp
  have hmain : ParseAllContracts (pre ++ bad :: post) = .error (.fileErr bad.path err) := by
    unfold ParseAllContracts
    rw [List.foldlM_append, hr']
    have hb : ((Except.ok r' : Except ParseError Registry) >>=
        fun init => (bad :: post).foldlM processEntry init)
        = (bad :: post).foldlM processEntry r' := rfl
    rw [hb, List.foldlM_cons, h2]
    rfl
  refine ⟨hmain, fun m hc => ?_⟩
  rw [hmain] at hc
  exact absurd hc (by simp)

def c8good : ABIFile :=
  { contractName := "G", ast := { nodes := [pragmaNode ["solidity"]] } }

def c8bad : WalkEntry := mkEntry "bad.json" { contractName := "B", ast := { nodes := [] } }

/-- C8 witness: the theorem applied to a batch of one good document followed
by a document with no AST nodes; the whole build returns the wrapped
missing-AST error and no map. -/
theorem claim8_witness :
    (∀ e ∈ [mkEntry "good.json" c8good], entryOkB e = true) ∧
    c8bad.accessErr = none ∧ c8bad.isDir = false ∧ goExt c8bad.path = ".json" ∧
    ParseContractFile c8bad.path c8bad.data = .error (.missingAst "bad.json") ∧
    ParseAllContracts ([mkEntry "good.json" c8good] ++ c8bad :: []) =
      .error (.fileErr c8bad.path (.missingAst "bad.json")) ∧
    ∀ m : Registry,
      ParseAllContracts ([mkEntry "good.json" c8good] ++ c8bad :: []) ≠ .ok m := by
  have happ := claim8_all_or_nothing [mkEntry "good.json" c8good] [] c8bad
    (.missingAst "bad.json") (by decide) rfl rfl rfl rfl
  exact ⟨by decide, rfl, rfl, rfl, rfl, happ.1, happ.2⟩

end AbiAst
